import Mathlib

/-!
Verification of the quoth list/quote collaboration engine.

This file gives a shallow embedding of the core services of the repository:

* `src/services/firestore.ts` — list/quote/alias/collaborator store operations,
  `leaveList`, `mergeLists`;
* `src/utils/quotes.ts` — `findMatchingListIds`, `sortQuotesByDate`;
* the import service (`importQuotes`);
* `src/services/export.ts` — `buildExportData`, `toExportQuote`.

The external Firestore document store is modelled by an explicit `Store`
value: each collection is a list of documents keyed by their `id` field,
`addDoc`-style auto-ids are drawn from a fresh-id counter (`nextId`), and
`serverTimestamp()` is the store clock `now`.  Firestore timestamps are
modelled by their `toMillis` value (`Millis`); a document field that may be
absent is an `Option`.  `updateDoc` on a missing document fails, which is the
one failure mode of plain writes; reads never fail.  Operations that can
fail return an `Except` together with the store reached, so that the
"no writes before the error" behaviour is visible in the result state.
-/

namespace Quoth

/-- Milliseconds since the epoch: the `toMillis` view of a Firestore
timestamp. -/
abbrev Millis := Int

/-- A quote document (collection `quotes`). -/
structure Quote where
  id : String
  text : String
  personAlias : String
  listId : String
  createdAt : Option Millis
  createdBy : String
deriving Repr, DecidableEq

/-- A list document (collection `lists`). -/
structure QuoteList where
  id : String
  personName : String
  collaborators : List String
  createdAt : Option Millis
  createdBy : String
deriving Repr, DecidableEq

/-- The document store: the three collections used by the core, the fresh
auto-id counter, and the server clock.  An alias entry
`(userId, listId, alias)` models the document at
`users/userId/listAliases/listId`. -/
structure Store where
  lists : List QuoteList
  quotes : List Quote
  aliases : List (String × String × String)
  nextId : Nat
  now : Millis
deriving Repr, DecidableEq

/-- Store errors: `notFound` models the `throw new Error('List not found')`
paths, `updateMissing` models Firestore's rejection of `updateDoc` on a
missing document. -/
inductive Err where
  | notFound
  | updateMissing
deriving Repr, DecidableEq

/-- Auto-generated document ids, in generation order. -/
def genId (n : Nat) : String := "doc" ++ toString n

/-- `q.createdAt?.toMillis?.() ?? 0` — missing timestamps read as 0. -/
def quoteMillis (q : Quote) : Millis := q.createdAt.getD 0

/-- The client-side `.sort((a, b) => bTime - aTime)` applied after quote
reads: a stable sort, newest first (JS `Array.prototype.sort` is stable). -/
def sortByMillisDesc (qs : List Quote) : List Quote :=
  List.insertionSort (fun a b => quoteMillis b ≤ quoteMillis a) qs

/-- `getList`: point read of a list document. -/
def getList (s : Store) (listId : String) : Option QuoteList :=
  s.lists.find? (fun l => l.id == listId)

/-- `getQuotesForList`: equality query on `listId`, then the client-side
descending sort. -/
def getQuotesForList (s : Store) (listId : String) : List Quote :=
  sortByMillisDesc (s.quotes.filter (fun q => q.listId == listId))

/-- `getUserLists`: `array-contains` query on `collaborators`. -/
def getUserLists (s : Store) (userId : String) : List QuoteList :=
  s.lists.filter (fun l => l.collaborators.contains userId)

/-- `getListAlias`: point read of `users/userId/listAliases/listId`. -/
def getListAlias (s : Store) (userId listId : String) : Option String :=
  (s.aliases.find? (fun e => e.1 == userId && e.2.1 == listId)).map
    (fun e => e.2.2)

/-- `getUserListAliases`: the user's alias subcollection as a
`Record<listId, alias>`, in document order. -/
def getUserListAliases (s : Store) (userId : String) :
    List (String × String) :=
  (s.aliases.filter (fun e => e.1 == userId)).map (fun e => (e.2.1, e.2.2))

/-- Lookup in a `Record<string, string>` value (`aliases[listId]`). -/
def recordGet (m : List (String × String)) (k : String) : Option String :=
  (m.find? (fun e => e.1 == k)).map (fun e => e.2)

/-- `setDoc` on an alias path: overwrite if the document exists, else
create it. -/
def setListAlias (s : Store) (userId listId aliasVal : String) : Store :=
  if s.aliases.any (fun e => e.1 == userId && e.2.1 == listId) then
    { s with aliases := s.aliases.map (fun e =>
        if e.1 == userId && e.2.1 == listId then (userId, listId, aliasVal)
        else e) }
  else
    { s with aliases := s.aliases ++ [(userId, listId, aliasVal)] }

/-- `deleteDoc` on an alias path. -/
def deleteListAlias (s : Store) (userId listId : String) : Store :=
  { s with aliases := s.aliases.filter (fun e =>
      !(e.1 == userId && e.2.1 == listId)) }

/-- The `addDoc(collection(db, 'lists'), ...)` write inside `createList`:
collaborators start as `[userId]`, `createdAt` is the server timestamp. -/
def addListDoc (s : Store) (personName userId : String) : String × Store :=
  let listId := genId s.nextId
  (listId,
    { s with
        lists := s.lists ++
          [⟨listId, personName, [userId], some s.now, userId⟩]
        nextId := s.nextId + 1 })

/-- `createList`: write the list document, then the creator's alias document
(alias = personName). -/
def createList (s : Store) (personName userId : String) : String × Store :=
  let r := addListDoc s personName userId
  (r.1, setListAlias r.2 userId r.1 personName)

/-- The `addDoc(collection(db, 'quotes'), ...)` write with explicit field
values (used by the quote-copy loop of `leaveList` and by import). -/
def addQuoteDoc (s : Store) (text personAlias listId : String)
    (createdAt : Option Millis) (createdBy : String) : Store :=
  { s with
      quotes := s.quotes ++
        [⟨genId s.nextId, text, personAlias, listId, createdAt, createdBy⟩]
      nextId := s.nextId + 1 }

/-- `addCollaborator`: `updateDoc` with `arrayUnion(userId)` — fails if the
list document is missing, otherwise appends `userId` when absent. -/
def addCollaborator (s : Store) (listId userId : String) :
    Except Err Store :=
  if s.lists.any (fun l => l.id == listId) then
    .ok { s with lists := s.lists.map (fun l =>
        if l.id == listId then
          { l with collaborators :=
              if l.collaborators.contains userId then l.collaborators
              else l.collaborators ++ [userId] }
        else l) }
  else .error .updateMissing

/-- `removeCollaborator`: `updateDoc` with `arrayRemove(userId)` — fails if
the list document is missing, otherwise removes every occurrence. -/
def removeCollaborator (s : Store) (listId userId : String) :
    Except Err Store :=
  if s.lists.any (fun l => l.id == listId) then
    .ok { s with lists := s.lists.map (fun l =>
        if l.id == listId then
          { l with collaborators :=
              l.collaborators.filter (fun c => !(c == userId)) }
        else l) }
  else .error .updateMissing

/-- `deleteList`: `deleteDoc` on the list path. -/
def deleteList (s : Store) (listId : String) : Store :=
  { s with lists := s.lists.filter (fun l => !(l.id == listId)) }

/-- `updateDoc(doc(db, 'quotes', quoteId), \x7b listId \x7d)` — fails if the
quote document is missing. -/
def updateQuoteListId (s : Store) (quoteId newListId : String) :
    Except Err Store :=
  if s.quotes.any (fun q => q.id == quoteId) then
    .ok { s with quotes := s.quotes.map (fun q =>
        if q.id == quoteId then { q with listId := newListId } else q) }
  else .error .updateMissing

/-- The quote-copy loop of `leaveList`: one `addDoc` per source quote,
preserving `text`, `personAlias`, `createdAt` and `createdBy`, with the new
list as target. -/
def copyQuotesTo (newListId : String) (qs : List Quote) (s : Store) :
    Store :=
  qs.foldl (fun st q =>
    addQuoteDoc st q.text q.personAlias newListId q.createdAt q.createdBy) s

/-- `leaveList`: fork a personal copy, then remove the user from the
original list.  The result pairs the outcome with the store reached, so
the not-found path visibly performs no writes.  The alias is carried over
only when it is non-empty (JS truthiness of `currentAlias`) and differs
from the person name, exactly as in
`if (currentAlias && currentAlias !== list.personName)`. -/
def leaveList (s : Store) (listId userId : String) :
    Except Err String × Store :=
  match getList s listId with
  | none => (.error .notFound, s)
  | some list =>
    let currentAlias := getListAlias s userId listId
    let quotes := getQuotesForList s listId
    let r := createList s list.personName userId
    let newListId := r.1
    let s1 := r.2
    let s2 :=
      match currentAlias with
      | some a =>
        if a ≠ "" ∧ a ≠ list.personName then
          setListAlias s1 userId newListId a
        else s1
      | none => s1
    let s3 := copyQuotesTo newListId quotes s2
    match removeCollaborator s3 listId userId with
    | .error e => (.error e, s3)
    | .ok s4 => (.ok newListId, deleteListAlias s4 userId listId)

/-- The quote-reassignment loop of `mergeLists`: one `updateDoc` per read
quote, stopping at the first failure and reporting the store reached. -/
def updateQuotesListIds (s : Store) (qs : List Quote) (keepListId : String) :
    Option Err × Store :=
  match qs with
  | [] => (none, s)
  | q :: rest =>
    match updateQuoteListId s q.id keepListId with
    | .error e => (some e, s)
    | .ok s1 => updateQuotesListIds s1 rest keepListId

/-- The collaborator loop of `mergeLists`: `addCollaborator` once per
collaborator of the merged list, in order. -/
def addAllCollaborators (s : Store) (keepListId : String)
    (cs : List String) : Option Err × Store :=
  match cs with
  | [] => (none, s)
  | c :: rest =>
    match addCollaborator s keepListId c with
    | .error e => (some e, s)
    | .ok s1 => addAllCollaborators s1 keepListId rest

/-- `mergeLists`: read the merged list and its quotes, reassign every quote
to `keepListId`, union the collaborators into `keepListId`, delete the
acting user's alias for `mergeListId`, delete the merged list document. -/
def mergeLists (s : Store) (keepListId mergeListId userId : String) :
    Except Err Unit × Store :=
  match getList s mergeListId with
  | none => (.error .notFound, s)
  | some mergeList =>
    let quotes := getQuotesForList s mergeListId
    let r1 := updateQuotesListIds s quotes keepListId
    match r1.1 with
    | some e => (.error e, r1.2)
    | none =>
      let r2 := addAllCollaborators r1.2 keepListId mergeList.collaborators
      match r2.1 with
      | some e => (.error e, r2.2)
      | none =>
        let s3 := deleteListAlias r2.2 userId mergeListId
        (.ok (), deleteList s3 mergeListId)

/-! ### `src/utils/quotes.ts` -/

/-- Model of JS `String.prototype.toLowerCase()`: character-wise lowering.
(`String.toLower` of the core library is the same map, restated here so
that it evaluates by kernel reduction.) -/
def strLower (s : String) : String := ⟨s.data.map Char.toLower⟩

/-- `findMatchingListIds`: every listId whose alias matches the name
case-insensitively, in entry order of the alias record. -/
def findMatchingListIds (aliases : List (String × String))
    (name : String) : List String :=
  let normalized := strLower name
  (aliases.filter (fun e => strLower e.2 == normalized)).map (fun e => e.1)

/-- The `'asc' | 'desc'` order flag of `sortQuotesByDate`. -/
inductive SortOrder where
  | asc
  | desc
deriving Repr, DecidableEq

/-- `sortQuotesByDate`: returns a new array sorted by the
`(a, b) => order === 'desc' ? bTime - aTime : aTime - bTime` comparator,
with missing timestamps read as 0.  JS `Array.prototype.sort` is a stable
sort, modelled by the stable `List.insertionSort`. -/
def sortQuotesByDate (quotes : List Quote) (order : SortOrder) :
    List Quote :=
  match order with
  | .desc => List.insertionSort
      (fun a b => quoteMillis b ≤ quoteMillis a) quotes
  | .asc => List.insertionSort
      (fun a b => quoteMillis a ≤ quoteMillis b) quotes

/-! ### The CSV import service (`importQuotes`) -/

/-- A validated CSV row, as produced by `parseQuoteCsv`; the optional
parsed date is modelled by its millisecond value. -/
structure ParsedQuote where
  person : String
  text : String
  date : Option Millis
deriving Repr, DecidableEq

/-- The summary returned by `importQuotes`. -/
structure ImportResult where
  created : Nat
  listsCreated : Nat
  errors : List String
deriving Repr, DecidableEq

/-- `newAliases[key] = value` on a `Record<string, string>` modelled as an
assoc list in insertion order. -/
def recordSet (m : List (String × String)) (k v : String) :
    List (String × String) :=
  if m.any (fun e => e.1 == k) then
    m.map (fun e => if e.1 == k then (k, v) else e)
  else m ++ [(k, v)]

/-- The per-row error entry:
the template literal around `row.text.slice(0, 30)` and `err.message`. -/
def rowErrorMsg (text msg : String) : String :=
  "\"" ++ text.take 30 ++ "...\" - " ++ msg

/-- The running state of an import batch: the summary so far, the store,
the number of store writes attempted so far, and the running alias map
(`newAliases`). -/
structure ImpAcc where
  res : ImportResult
  store : Store
  widx : Nat
  aliases : List (String × String)
deriving Repr, DecidableEq

/-- External failures of store writes are modelled by an oracle: write
number `k` rejects with message `msg` when `oracle k = some msg`, and
succeeds when `oracle k = none`.  Each attempted write consumes one oracle
slot. -/
abbrev WriteOracle := Nat → Option String

/-- The all-success oracle: no store write fails. -/
def noFailure : WriteOracle := fun _ => none

/-- One iteration of the `for (const row of parsed)` loop of
`importQuotes`: resolve against the running alias map; on no match,
`createList` (two writes) and record the new mapping and `listsCreated++`;
write the quote to the first matching id; any failing write makes the row
error out (caught per row) without halting the batch. -/
def importStep (oracle : WriteOracle) (userId : String) (acc : ImpAcc)
    (row : ParsedQuote) : ImpAcc :=
  match findMatchingListIds acc.aliases row.person with
  | [] =>
    match oracle acc.widx with
    | some msg =>
      { acc with
          res := { acc.res with
            errors := acc.res.errors ++ [rowErrorMsg row.text msg] }
          widx := acc.widx + 1 }
    | none =>
      let newListId := genId acc.store.nextId
      let st1 := (addListDoc acc.store row.person userId).2
      match oracle (acc.widx + 1) with
      | some msg =>
        { acc with
            res := { acc.res with
              errors := acc.res.errors ++ [rowErrorMsg row.text msg] }
            store := st1
            widx := acc.widx + 2 }
      | none =>
        let st2 := setListAlias st1 userId newListId row.person
        let aliases2 := recordSet acc.aliases newListId row.person
        match oracle (acc.widx + 2) with
        | some msg =>
          { res := { acc.res with
              listsCreated := acc.res.listsCreated + 1
              errors := acc.res.errors ++ [rowErrorMsg row.text msg] }
            store := st2
            widx := acc.widx + 3
            aliases := aliases2 }
        | none =>
          { res := { acc.res with
              created := acc.res.created + 1
              listsCreated := acc.res.listsCreated + 1 }
            store := addQuoteDoc st2 row.text row.person newListId
              (some (row.date.getD st2.now)) userId
            widx := acc.widx + 3
            aliases := aliases2 }
  | listId :: _ =>
    match oracle acc.widx with
    | some msg =>
      { acc with
          res := { acc.res with
            errors := acc.res.errors ++ [rowErrorMsg row.text msg] }
          widx := acc.widx + 1 }
    | none =>
      { acc with
          res := { acc.res with created := acc.res.created + 1 }
          store := addQuoteDoc acc.store row.text row.person listId
            (some (row.date.getD acc.store.now)) userId
          widx := acc.widx + 1 }

/-- `importQuotes`: sequential fold of `importStep` over the parsed rows,
seeded with the caller's alias map (`const newAliases = {...aliases}`). -/
def importQuotes (oracle : WriteOracle) (parsed : List ParsedQuote)
    (userId : String) (aliases : List (String × String)) (s : Store) :
    ImportResult × Store :=
  let acc := parsed.foldl (importStep oracle userId) ⟨⟨0, 0, []⟩, s, 0, aliases⟩
  (acc.res, acc.store)

/-! ### `src/services/export.ts` -/

/-- A flattened quote of the export snapshot — exactly the four exported
fields. -/
structure ExportQuote where
  text : String
  personAlias : String
  createdAt : String
  createdBy : String
deriving Repr, DecidableEq

/-- One list entry of the export snapshot. -/
structure ExportList where
  id : String
  personName : String
  aliasName : String
  quotes : List ExportQuote
deriving Repr, DecidableEq

/-- The export snapshot. -/
structure ExportData where
  exportedAt : String
  totalQuotes : Nat
  totalLists : Nat
  lists : List ExportList
deriving Repr, DecidableEq

/-- `buildExportData` options; the `fromDate` / `toDate` strings are
modelled by their parsed `new Date(x).getTime()` millisecond values, and
an absent (or empty, hence falsy) option by `none`. -/
structure BuildExportOptions where
  listId : Option String
  fromDate : Option Millis
  toDate : Option Millis
deriving Repr, DecidableEq

/-- Two-digit zero padding. -/
def pad2 (n : Nat) : String :=
  if n < 10 then "0" ++ toString n else toString n

/-- Three-digit zero padding. -/
def pad3 (n : Nat) : String :=
  if n < 10 then "00" ++ toString n
  else if n < 100 then "0" ++ toString n
  else toString n

/-- Four-digit zero padding. -/
def pad4 (n : Nat) : String :=
  if n < 10 then "000" ++ toString n
  else if n < 100 then "00" ++ toString n
  else if n < 1000 then "0" ++ toString n
  else toString n

/-- Proleptic-Gregorian civil date from days since the epoch
(year, month, day). -/
def civilFromDays (z0 : Int) : Int × Nat × Nat :=
  let z := z0 + 719468
  let era := z.ediv 146097
  let doe := (z.emod 146097).toNat
  let yoe := (doe - doe / 1460 + doe / 36524 - doe / 146096) / 365
  let doy := doe - (365 * yoe + yoe / 4 - yoe / 100)
  let mp := (5 * doy + 2) / 153
  let d := doy - (153 * mp + 2) / 5 + 1
  let m := if mp < 10 then mp + 3 else mp - 9
  (yoe + era * 400 + (if m ≤ 2 then 1 else 0), m, d)

/-- The year component of the ISO string. -/
def yearString (y : Int) : String :=
  if y < 0 then "-" ++ pad4 y.natAbs else pad4 y.toNat

/-- Model of JS `Date.prototype.toISOString()` on a millisecond value:
`YYYY-MM-DDTHH:MM:SS.mmmZ` in UTC. -/
def isoOfMillis (t : Millis) : String :=
  let ms := (t.emod 1000).toNat
  let secs := (t - t.emod 1000).ediv 1000
  let days := secs.ediv 86400
  let sod := (secs.emod 86400).toNat
  let c := civilFromDays days
  yearString c.1 ++ "-" ++ pad2 c.2.1 ++ "-" ++ pad2 c.2.2 ++ "T" ++
    pad2 (sod / 3600) ++ ":" ++ pad2 (sod % 3600 / 60) ++ ":" ++
    pad2 (sod % 60) ++ "." ++ pad3 ms ++ "Z"

/-- `toExportQuote`: flatten a quote to the four exported fields;
`createdAt` is the ISO string of the timestamp, or `''` when absent
(`q.createdAt?.toDate?.().toISOString() ?? ''`). -/
def toExportQuote (q : Quote) : ExportQuote :=
  { text := q.text
    personAlias := q.personAlias
    createdAt :=
      match q.createdAt with
      | some t => isoOfMillis t
      | none => ""
    createdBy := q.createdBy }

/-- Fixed-size chunking with explicit fuel (the `i += 30` loop of
`getQuotesForLists`). -/
def chunksAux (n : Nat) (l : List String) (fuel : Nat) :
    List (List String) :=
  match fuel, l with
  | _, [] => []
  | 0, _ => []
  | fuel + 1, l => l.take n :: chunksAux n (l.drop n) fuel

/-- All chunks of size `n` of a list, in order. -/
def chunksOf (n : Nat) (l : List String) : List (List String) :=
  chunksAux n l l.length

/-- `getQuotesForLists`: empty input short-circuits; otherwise one `in`
query per 30-id batch, results concatenated, then the client-side
descending re-sort. -/
def getQuotesForLists (s : Store) (listIds : List String) : List Quote :=
  if listIds.isEmpty then []
  else
    sortByMillisDesc
      ((chunksOf 30 listIds).foldl
        (fun acc batch =>
          acc ++ s.quotes.filter (fun q => batch.contains q.listId)) [])

/-- The `listsToExport` narrowing: all of the user's lists, or only the one
named by `options.listId`. -/
def selectedLists (s : Store) (userId : String) (o : BuildExportOptions) :
    List QuoteList :=
  match o.listId with
  | some lid => (getUserLists s userId).filter (fun l => l.id == lid)
  | none => getUserLists s userId

/-- The two date filters of `buildExportData`: `fromDate` keeps timestamps
`>= from`, `toDate` keeps timestamps `< to + 86400000` (end of day);
missing timestamps read as 0. -/
def applyDateFilters (fromDate toDate : Option Millis)
    (qs : List Quote) : List Quote :=
  let qs1 :=
    match fromDate with
    | some f => qs.filter (fun q => decide (f ≤ quoteMillis q))
    | none => qs
  match toDate with
  | some t => qs1.filter (fun q => decide (quoteMillis q < t + 86400000))
  | none => qs1

/-- One step of the `quotesByList` map build: append the quote to its
list's bucket (`Map.get(..) ?? []` then push then set). -/
def groupInsert (m : List (String × List Quote)) (q : Quote) :
    List (String × List Quote) :=
  if m.any (fun e => e.1 == q.listId) then
    m.map (fun e =>
      if e.1 == q.listId then (e.1, e.2 ++ [q]) else e)
  else m ++ [(q.listId, [q])]

/-- The `quotesByList` map build: fold `groupInsert` over the quotes in
order. -/
def groupPairs (qs : List Quote) : List (String × List Quote) :=
  qs.foldl groupInsert []

/-- `quotesByList.get(listId) ?? []`. -/
def groupGet (m : List (String × List Quote)) (k : String) : List Quote :=
  ((m.find? (fun e => e.1 == k)).map (fun e => e.2)).getD []

/-- One list entry of the export: id, personName, resolved alias
(`aliases[list.id] ?? list.personName`), and the list's filtered quotes
flattened by `toExportQuote`. -/
def exportEntry (aliases : List (String × String))
    (g : List (String × List Quote)) (list : QuoteList) : ExportList :=
  { id := list.id
    personName := list.personName
    aliasName := (recordGet aliases list.id).getD list.personName
    quotes := (groupGet g list.id).map toExportQuote }

/-- The list entries of `buildExportData` before the final inclusion
filter: one entry per selected list, each with its date-filtered quote
subset. -/
def exportEntries (s : Store) (userId : String)
    (o : BuildExportOptions) : List ExportList :=
  let aliases := getUserListAliases s userId
  let listsToExport := selectedLists s userId o
  let listIds := listsToExport.map (fun l => l.id)
  let quotes :=
    applyDateFilters o.fromDate o.toDate (getQuotesForLists s listIds)
  listsToExport.map (exportEntry aliases (groupPairs quotes))

/-- `buildExportData`: load lists and aliases, narrow by `options.listId`,
fetch and date-filter the quotes, group them per list, and keep a list
entry when it has quotes or no `fromDate` filter was given
(`l.quotes.length > 0 || !options?.fromDate`). -/
def buildExportData (s : Store) (userId : String)
    (o : BuildExportOptions) : ExportData :=
  let exportLists :=
    (exportEntries s userId o).filter
      (fun l => decide (0 < l.quotes.length) || o.fromDate.isNone)
  let totalQuotes := exportLists.foldl (fun n l => n + l.quotes.length) 0
  { exportedAt := isoOfMillis s.now
    totalQuotes := totalQuotes
    totalLists := exportLists.length
    lists := exportLists }

/-! ### Auxiliary definitions used by the verification -/

/-- Iterated `arrayUnion`: append each element of `cs` not already
present, in order — the net effect on a `collaborators` array of the
`addCollaborator` loop of `mergeLists`. -/
def unionAppend (a cs : List String) : List String :=
  cs.foldl (fun acc c => if acc.contains c then acc else acc ++ [c]) a

/-- The per-quote payload preserved by the `leaveList` copy loop:
everything except the document id and the list assignment. -/
def qproj (q : Quote) : String × String × Option Millis × String :=
  (q.text, q.personAlias, q.createdAt, q.createdBy)

/-- An empty store with a nonzero clock, for concrete runs. -/
def emptyStore : Store := ⟨[], [], [], 0, 5000⟩

/-- The import scenario of the spec: three rows for a new person `Alice`,
two rows for `Bob`. -/
def importRows : List ParsedQuote :=
  [⟨"Alice", "a1", none⟩, ⟨"Alice", "a2", none⟩, ⟨"Alice", "a3", none⟩,
   ⟨"Bob", "b1", none⟩, ⟨"Bob", "b2", none⟩]

/-- A store with one list and three quotes at 1000/2000/3000 ms, for
concrete export runs. -/
def expStore : Store :=
  ⟨[⟨"l1", "Mike", ["u1"], some 0, "u1"⟩],
   [⟨"q1", "t1", "Mike", "l1", some 1000, "u1"⟩,
    ⟨"q2", "t2", "Mike", "l1", some 2000, "u1"⟩,
    ⟨"q3", "t3", "Mike", "l1", some 3000, "u1"⟩],
   [("u1", "l1", "Mike")], 0, 4000⟩

/-- A store with two lists sharing collaborator `u2`, for concrete
leave/merge runs. -/
def twoListStore : Store :=
  ⟨[⟨"l1", "Mike", ["u1", "u2"], some 0, "u1"⟩,
    ⟨"l2", "Mike", ["u2", "u3"], some 0, "u2"⟩],
   [⟨"q1", "t1", "Mike", "l1", some 1000, "u1"⟩,
    ⟨"q2", "t2", "Mike", "l2", some 2000, "u2"⟩,
    ⟨"q3", "t3", "Mike", "l2", none, "u3"⟩],
   [("u1", "l1", "Mikey"), ("u1", "l2", "Mike")], 0, 4000⟩

/-- The write phase of `leaveList` after the fork target `s2` has been
prepared (list created, alias carried over): copy the quotes, remove the
collaborator, delete the old alias.  `leaveList` on an existing list is
definitionally this computation. -/
def leaveListTail (s : Store) (listId userId : String) (s2 : Store) :
    Except Err String × Store :=
  let s3 := copyQuotesTo (genId s.nextId) (getQuotesForList s listId) s2
  match removeCollaborator s3 listId userId with
  | .error e => (.error e, s3)
  | .ok s4 => (.ok (genId s.nextId), deleteListAlias s4 userId listId)

/-! ### Lemmas -/

theorem find?_filter_not (p : α → Bool) (l : List α) :
    (l.filter (fun a => !(p a))).find? p = none := by
  rw [List.find?_eq_none]
  intro a ha
  have := (List.mem_filter.mp ha).2
  simp only [Bool.not_eq_true'] at this
  simp [this]

theorem find?_filter_keep (p q : α → Bool) (l : List α) (a : α)
    (h : l.find? p = some a) (hq : q a = true) :
    (l.filter q).find? p = some a := by
  induction l with
  | nil => simp at h
  | cons x xs ih =>
    by_cases hx : p x = true
    · have hxa : x = a := by simpa [List.find?_cons, hx] using h
      subst hxa
      simp [List.filter_cons, hq, List.find?_cons, hx]
    · have h' : List.find? p xs = some a := by
        simpa [List.find?_cons, hx] using h
      rw [List.filter_cons]
      split
      · simpa [List.find?_cons, hx] using ih h'
      · exact ih h'

theorem mem_unionAppend (x : String) :
    ∀ (cs a : List String), x ∈ unionAppend a cs ↔ x ∈ a ∨ x ∈ cs := by
  intro cs
  induction cs with
  | nil => intro a; simp [unionAppend]
  | cons c rest ih =>
    intro a
    show x ∈ unionAppend (if a.contains c then a else a ++ [c]) rest ↔ _
    rw [ih]
    by_cases hc : a.contains c
    · rw [if_pos hc]
      have hca : c ∈ a := by simpa using hc
      constructor
      · rintro (h | h)
        · exact Or.inl h
        · exact Or.inr (List.mem_cons_of_mem _ h)
      · rintro (h | h)
        · exact Or.inl h
        · rcases List.mem_cons.mp h with h | h
          · exact Or.inl (h ▸ hca)
          · exact Or.inr h
    · rw [if_neg hc]
      simp only [List.mem_append, List.mem_singleton, List.mem_cons]
      tauto

theorem setListAlias_lists (s : Store) (u lid a : String) :
    (setListAlias s u lid a).lists = s.lists := by
  unfold setListAlias; split <;> rfl

theorem setListAlias_quotes (s : Store) (u lid a : String) :
    (setListAlias s u lid a).quotes = s.quotes := by
  unfold setListAlias; split <;> rfl

theorem setListAlias_nextId (s : Store) (u lid a : String) :
    (setListAlias s u lid a).nextId = s.nextId := by
  unfold setListAlias; split <;> rfl

theorem setListAlias_now (s : Store) (u lid a : String) :
    (setListAlias s u lid a).now = s.now := by
  unfold setListAlias; split <;> rfl

theorem addListDoc_lists (s : Store) (p u : String) :
    ((addListDoc s p u).2).lists =
      s.lists ++ [⟨genId s.nextId, p, [u], some s.now, u⟩] := rfl

theorem addListDoc_quotes (s : Store) (p u : String) :
    ((addListDoc s p u).2).quotes = s.quotes := rfl

theorem addListDoc_aliases (s : Store) (p u : String) :
    ((addListDoc s p u).2).aliases = s.aliases := rfl

theorem addListDoc_nextId (s : Store) (p u : String) :
    ((addListDoc s p u).2).nextId = s.nextId + 1 := rfl

theorem addListDoc_now (s : Store) (p u : String) :
    ((addListDoc s p u).2).now = s.now := rfl

theorem addQuoteDoc_lists (s : Store) (t p lid : String) (c : Option Millis)
    (b : String) : (addQuoteDoc s t p lid c b).lists = s.lists := rfl

theorem addQuoteDoc_aliases (s : Store) (t p lid : String)
    (c : Option Millis) (b : String) :
    (addQuoteDoc s t p lid c b).aliases = s.aliases := rfl

theorem addQuoteDoc_quotes (s : Store) (t p lid : String)
    (c : Option Millis) (b : String) :
    (addQuoteDoc s t p lid c b).quotes =
      s.quotes ++ [⟨genId s.nextId, t, p, lid, c, b⟩] := rfl

theorem addQuoteDoc_now (s : Store) (t p lid : String) (c : Option Millis)
    (b : String) : (addQuoteDoc s t p lid c b).now = s.now := rfl

/-! ### C3: not-found failures perform no writes -/

/-- C3: when the referenced list does not exist, `leaveList` and
`mergeLists` fail with the not-found error and return the store unchanged:
no write happens on this error path. -/
theorem claim_C3 (s : Store) (listId userId keepListId : String)
    (h : getList s listId = none) :
    leaveList s listId userId = (.error .notFound, s) ∧
    mergeLists s keepListId listId userId = (.error .notFound, s) := by
  unfold leaveList mergeLists
  rw [h]
  exact ⟨rfl, rfl⟩

/-- Witness for C3 at a concrete store with no list `x`. -/
theorem claim_C3_witness :
    leaveList emptyStore "x" "u1" = (.error .notFound, emptyStore) ∧
    mergeLists emptyStore "k" "x" "u1" = (.error .notFound, emptyStore) :=
  claim_C3 emptyStore "x" "u1" "k" rfl

/-! ### C8: empty name / empty alias map -/

/-- C8 counterexample: an empty name is matched against the aliases with
the same case-insensitive equality as any other name, so it matches an
empty-string alias; the claim's "empty name yields the empty result" fails
on the map `\x7b l1 : "" \x7d`. -/
theorem claim_C8_cex :
    findMatchingListIds [("l1", "")] "" = ["l1"] ∧
    findMatchingListIds [("l1", "")] "" ≠ [] := by decide

/-- C8 (amended): an empty alias map always yields the empty result, and
an empty name yields the empty result provided no alias in the map is
itself the empty string (the code has no empty-name special case: an empty
name matches exactly the empty aliases). -/
theorem claim_C8 (aliases : List (String × String)) (name : String) :
    findMatchingListIds [] name = [] ∧
    (name = "" → (∀ e ∈ aliases, e.2 ≠ "") →
      findMatchingListIds aliases name = []) := by
  constructor
  · rfl
  · intro hn he
    subst hn
    show (aliases.filter (fun e => strLower e.2 == strLower "")).map
      (fun e => e.1) = []
    have hf : aliases.filter (fun e => strLower e.2 == strLower "") = [] := by
      rw [List.filter_eq_nil_iff]
      intro e hme
      simp only [beq_iff_eq]
      intro hc
      apply he e hme
      have hdata : e.2.data.map Char.toLower = [] := congrArg String.data hc
      exact String.ext (List.map_eq_nil_iff.mp hdata)
    rw [hf]
    rfl

/-- Witness for C8 at a concrete nonempty map with nonempty aliases. -/
theorem claim_C8_witness :
    findMatchingListIds [] "Mike" = [] ∧
    ("" = "" → (∀ e ∈ [("l1", "Mike")], e.2 ≠ "") →
      findMatchingListIds [("l1", "Mike")] "" = []) :=
  claim_C8 [("l1", "Mike")] ""

/-! ### C9: sortQuotesByDate -/

/-- C9: `sortQuotesByDate` returns a permutation of its input (the
embedding is pure, so the input itself is untouched; the result is a new
sequence over the same quotes), the result is ordered by timestamp with
missing timestamps reading as 0, applying `asc` to the result of `desc`
yields an ascending sequence, and timestamps `[3000, null, 1000]` sorted
descending give `[3000, 1000, null]`. -/
theorem claim_C9 (Q : List Quote) :
    (sortQuotesByDate Q .desc).Perm Q ∧
    (sortQuotesByDate Q .asc).Perm Q ∧
    List.Sorted (fun a b => quoteMillis b ≤ quoteMillis a)
      (sortQuotesByDate Q .desc) ∧
    List.Sorted (fun a b => quoteMillis a ≤ quoteMillis b)
      (sortQuotesByDate Q .asc) ∧
    List.Sorted (fun a b => quoteMillis a ≤ quoteMillis b)
      (sortQuotesByDate (sortQuotesByDate Q .desc) .asc) ∧
    (sortQuotesByDate
        [⟨"a", "a", "p", "l", some 3000, "u1"⟩,
         ⟨"b", "b", "p", "l", none, "u1"⟩,
         ⟨"c", "c", "p", "l", some 1000, "u1"⟩] .desc).map
      (fun q => q.createdAt) = [some 3000, some 1000, none] := by
  haveI : IsTotal Quote (fun a b => quoteMillis b ≤ quoteMillis a) :=
    ⟨fun a b => le_total _ _⟩
  haveI : IsTrans Quote (fun a b => quoteMillis b ≤ quoteMillis a) :=
    ⟨fun a b c h1 h2 => le_trans h2 h1⟩
  haveI : IsTotal Quote (fun a b => quoteMillis a ≤ quoteMillis b) :=
    ⟨fun a b => le_total _ _⟩
  haveI : IsTrans Quote (fun a b => quoteMillis a ≤ quoteMillis b) :=
    ⟨fun a b c h1 h2 => le_trans h1 h2⟩
  refine ⟨List.perm_insertionSort _ Q, List.perm_insertionSort _ Q,
    List.sorted_insertionSort _ Q, List.sorted_insertionSort _ Q,
    List.sorted_insertionSort _ _, by decide⟩

/-! ### C5: export date filtering -/

/-- C5: the `fromDate` filter keeps exactly the quotes whose millisecond
timestamp (0 when absent) is `>= fromDate`, the `toDate` filter keeps
exactly those `< toDate + 86400000` (end-of-day inclusion); on quotes at
1000/2000/3000 ms a 1500 ms `fromDate` export keeps exactly the 2000/3000
quotes and a `toDate` at epoch day 0 keeps all three. -/
theorem claim_C5 (f t : Millis) (qs : List Quote) :
    (∀ q, q ∈ applyDateFilters (some f) none qs ↔
      q ∈ qs ∧ f ≤ quoteMillis q) ∧
    (∀ q, q ∈ applyDateFilters none (some t) qs ↔
      q ∈ qs ∧ quoteMillis q < t + 86400000) ∧
    ((buildExportData expStore "u1" ⟨none, some 1500, none⟩).lists.map
      (fun l => l.quotes.map (fun e => e.text)) = [["t3", "t2"]]) ∧
    (buildExportData expStore "u1" ⟨none, some 1500, none⟩).totalQuotes
      = 2 ∧
    (buildExportData expStore "u1" ⟨none, none, some 0⟩).totalQuotes
      = 3 := by
  refine ⟨?_, ?_, by decide, by decide, by decide⟩
  · intro q
    simp [applyDateFilters, List.mem_filter]
  · intro q
    simp [applyDateFilters, List.mem_filter]

/-! ### C6: export list inclusion -/

/-- C6: without a `fromDate` option the export has one list entry per
selected list (empty ones included); with a `fromDate` option exactly the
entries with a nonempty filtered quote set are kept. -/
theorem claim_C6 (s : Store) (u : String) (o : BuildExportOptions) :
    (o.fromDate = none →
      (buildExportData s u o).lists = exportEntries s u o) ∧
    (∀ f, o.fromDate = some f →
      (buildExportData s u o).lists =
        (exportEntries s u o).filter
          (fun l => decide (0 < l.quotes.length))) ∧
    (∀ f, o.fromDate = some f →
      ∀ l ∈ (buildExportData s u o).lists, l.quotes ≠ []) := by
  refine ⟨?_, ?_, ?_⟩
  · intro h
    simp [buildExportData, h]
  · intro f h
    simp [buildExportData, h]
  · intro f h l hl
    simp [buildExportData, h, List.mem_filter] at hl
    exact List.ne_nil_of_length_pos hl.2

/-- Witness for C6: a no-filter export keeps every entry of `expStore`,
and a far-future `fromDate` export keeps exactly the nonempty entries. -/
theorem claim_C6_witness :
    (buildExportData expStore "u1" ⟨none, none, none⟩).lists =
      exportEntries expStore "u1" ⟨none, none, none⟩ ∧
    (buildExportData expStore "u1" ⟨none, some 99999, none⟩).lists =
      (exportEntries expStore "u1" ⟨none, some 99999, none⟩).filter
        (fun l => decide (0 < l.quotes.length)) :=
  ⟨(claim_C6 expStore "u1" ⟨none, none, none⟩).1 rfl,
   (claim_C6 expStore "u1" ⟨none, some 99999, none⟩).2.1 99999 rfl⟩

/-! ### C10: import accounting -/

theorem importStep_count (oracle : WriteOracle) (u : String) (acc : ImpAcc)
    (row : ParsedQuote) :
    (importStep oracle u acc row).res.created +
      (importStep oracle u acc row).res.errors.length =
      acc.res.created + acc.res.errors.length + 1 := by
  unfold importStep
  cases findMatchingListIds acc.aliases row.person with
  | nil =>
    cases oracle acc.widx with
    | some msg => simp; omega
    | none =>
      cases oracle (acc.widx + 1) with
      | some msg => simp; omega
      | none =>
        cases oracle (acc.widx + 2) with
        | some msg => simp; omega
        | none => simp; omega
  | cons lid rest =>
    cases oracle acc.widx with
    | some msg => simp; omega
    | none => simp; omega

/-- C10: for every write-failure pattern, every input row sequence, and
every initial alias map and store, `importQuotes` accounts for each row
exactly once: `created + errors.length = rows.length`.  The fold runs
every row regardless of earlier failures, so a failing row never prevents
later rows from being processed. -/
theorem claim_C10 (oracle : WriteOracle) (rows : List ParsedQuote)
    (userId : String) (aliases : List (String × String)) (s : Store) :
    (importQuotes oracle rows userId aliases s).1.created +
      (importQuotes oracle rows userId aliases s).1.errors.length =
      rows.length := by
  have key : ∀ (rs : List ParsedQuote) (acc : ImpAcc),
      (rs.foldl (importStep oracle userId) acc).res.created +
        (rs.foldl (importStep oracle userId) acc).res.errors.length =
        acc.res.created + acc.res.errors.length + rs.length := by
    intro rs
    induction rs with
    | nil => intro acc; simp
    | cons r rest ih =>
      intro acc
      rw [List.foldl_cons, ih]
      have := importStep_count oracle userId acc r
      simp only [List.length_cons]
      omega
  have h0 := key rows ⟨⟨0, 0, []⟩, s, 0, aliases⟩
  simpa [importQuotes] using h0

/-! ### C4: import row routing -/

/-- C4: `importQuotes` folds `importStep` over the rows, threading the
running alias map (so a mapping recorded by one row is matched against by
all later rows).  With no write failures, a row with no alias match
creates exactly one new list, records its mapping, and writes its single
quote to the new list; a row with one or more matches writes its single
quote to the first matching id only, creating nothing.  On the concrete
batch of three new-person `Alice` rows and two aliased `Bob` rows the
result is `\x7bcreated: 5, listsCreated: 1, errors: []\x7d` with the three
`Alice` quotes sharing the one new listId `doc0`, which is not an existing
list id. -/
theorem claim_C4 (u : String) (acc : ImpAcc) (row : ParsedQuote)
    (oracle : WriteOracle) (m : List (String × String)) (s : Store) :
    (∀ r rs, importQuotes oracle (r :: rs) u m s =
      (((rs.foldl (importStep oracle u)
          (importStep oracle u ⟨⟨0, 0, []⟩, s, 0, m⟩ r))).res,
       ((rs.foldl (importStep oracle u)
          (importStep oracle u ⟨⟨0, 0, []⟩, s, 0, m⟩ r))).store)) ∧
    (findMatchingListIds acc.aliases row.person = [] →
      (importStep noFailure u acc row).res.created = acc.res.created + 1 ∧
      (importStep noFailure u acc row).res.listsCreated =
        acc.res.listsCreated + 1 ∧
      (importStep noFailure u acc row).res.errors = acc.res.errors ∧
      (importStep noFailure u acc row).store.lists =
        acc.store.lists ++
          [⟨genId acc.store.nextId, row.person, [u], some acc.store.now, u⟩] ∧
      (importStep noFailure u acc row).store.quotes =
        acc.store.quotes ++
          [⟨genId (acc.store.nextId + 1), row.text, row.person,
            genId acc.store.nextId, some (row.date.getD acc.store.now), u⟩] ∧
      (importStep noFailure u acc row).aliases =
        recordSet acc.aliases (genId acc.store.nextId) row.person) ∧
    (∀ lid rest, findMatchingListIds acc.aliases row.person = lid :: rest →
      (importStep noFailure u acc row).res.created = acc.res.created + 1 ∧
      (importStep noFailure u acc row).res.listsCreated =
        acc.res.listsCreated ∧
      (importStep noFailure u acc row).res.errors = acc.res.errors ∧
      (importStep noFailure u acc row).store.lists = acc.store.lists ∧
      (importStep noFailure u acc row).store.quotes =
        acc.store.quotes ++
          [⟨genId acc.store.nextId, row.text, row.person, lid,
            some (row.date.getD acc.store.now), u⟩] ∧
      (importStep noFailure u acc row).aliases = acc.aliases) ∧
    ((importQuotes noFailure importRows "u1" [("lB", "Bob")] emptyStore).1 =
      ⟨5, 1, []⟩ ∧
     (importQuotes noFailure importRows "u1" [("lB", "Bob")]
        emptyStore).2.quotes.map (fun q => (q.text, q.listId)) =
      [("a1", "doc0"), ("a2", "doc0"), ("a3", "doc0"),
       ("b1", "lB"), ("b2", "lB")] ∧
     ∀ l ∈ emptyStore.lists, l.id ≠ "doc0") := by
  refine ⟨fun r rs => rfl, ?_, ?_, by decide⟩
  · intro h
    unfold importStep
    rw [h]
    simp only [noFailure]
    refine ⟨by trivial, by trivial, by trivial, ?_, ?_, by trivial⟩
    · simp only [addQuoteDoc_lists, setListAlias_lists, addListDoc_lists]
    · simp only [addQuoteDoc_quotes, setListAlias_quotes, addListDoc_quotes,
        setListAlias_nextId, addListDoc_nextId, setListAlias_now,
        addListDoc_now]
  · intro lid rest h
    unfold importStep
    rw [h]
    exact ⟨rfl, rfl, rfl, rfl, rfl, rfl⟩

/-- Witness for C4: the two row-step branches at concrete inputs — a
fresh `Alice` row against an empty alias map, and a `Bob` row against a
map aliasing `lB` to `Bob`. -/
theorem claim_C4_witness :
    ((importStep noFailure "u1" ⟨⟨0, 0, []⟩, emptyStore, 0, []⟩
        ⟨"Alice", "a1", none⟩).res.created = 0 + 1 ∧
     (importStep noFailure "u1" ⟨⟨0, 0, []⟩, emptyStore, 0, []⟩
        ⟨"Alice", "a1", none⟩).res.listsCreated = 0 + 1 ∧
     (importStep noFailure "u1" ⟨⟨0, 0, []⟩, emptyStore, 0, []⟩
        ⟨"Alice", "a1", none⟩).res.errors = [] ∧
     (importStep noFailure "u1" ⟨⟨0, 0, []⟩, emptyStore, 0, []⟩
        ⟨"Alice", "a1", none⟩).store.lists =
       emptyStore.lists ++
         [⟨genId emptyStore.nextId, "Alice", ["u1"],
           some emptyStore.now, "u1"⟩] ∧
     (importStep noFailure "u1" ⟨⟨0, 0, []⟩, emptyStore, 0, []⟩
        ⟨"Alice", "a1", none⟩).store.quotes =
       emptyStore.quotes ++
         [⟨genId (emptyStore.nextId + 1), "a1", "Alice",
           genId emptyStore.nextId,
           some (Option.getD none emptyStore.now), "u1"⟩] ∧
     (importStep noFailure "u1" ⟨⟨0, 0, []⟩, emptyStore, 0, []⟩
        ⟨"Alice", "a1", none⟩).aliases =
       recordSet [] (genId emptyStore.nextId) "Alice") ∧
    ((importStep noFailure "u1" ⟨⟨0, 0, []⟩, emptyStore, 0, [("lB", "Bob")]⟩
        ⟨"Bob", "b1", none⟩).res.created = 0 + 1 ∧
     (importStep noFailure "u1" ⟨⟨0, 0, []⟩, emptyStore, 0, [("lB", "Bob")]⟩
        ⟨"Bob", "b1", none⟩).res.listsCreated = 0 ∧
     (importStep noFailure "u1" ⟨⟨0, 0, []⟩, emptyStore, 0, [("lB", "Bob")]⟩
        ⟨"Bob", "b1", none⟩).res.errors = [] ∧
     (importStep noFailure "u1" ⟨⟨0, 0, []⟩, emptyStore, 0, [("lB", "Bob")]⟩
        ⟨"Bob", "b1", none⟩).store.lists = emptyStore.lists ∧
     (importStep noFailure "u1" ⟨⟨0, 0, []⟩, emptyStore, 0, [("lB", "Bob")]⟩
        ⟨"Bob", "b1", none⟩).store.quotes =
       emptyStore.quotes ++
         [⟨genId emptyStore.nextId, "b1", "Bob", "lB",
           some (Option.getD none emptyStore.now), "u1"⟩] ∧
     (importStep noFailure "u1" ⟨⟨0, 0, []⟩, emptyStore, 0, [("lB", "Bob")]⟩
        ⟨"Bob", "b1", none⟩).aliases = [("lB", "Bob")]) :=
  ⟨(claim_C4 "u1" ⟨⟨0, 0, []⟩, emptyStore, 0, []⟩ ⟨"Alice", "a1", none⟩
      noFailure [] emptyStore).2.1 rfl,
   (claim_C4 "u1" ⟨⟨0, 0, []⟩, emptyStore, 0, [("lB", "Bob")]⟩
      ⟨"Bob", "b1", none⟩ noFailure [] emptyStore).2.2.1 "lB" []
     (by decide)⟩

/-! ### C1: leaveList -/

theorem createList_snd_lists (s : Store) (p u : String) :
    ((createList s p u).2).lists =
      s.lists ++ [⟨genId s.nextId, p, [u], some s.now, u⟩] := by
  show (setListAlias (addListDoc s p u).2 u (addListDoc s p u).1 p).lists = _
  rw [setListAlias_lists, addListDoc_lists]

theorem createList_snd_quotes (s : Store) (p u : String) :
    ((createList s p u).2).quotes = s.quotes := by
  show (setListAlias (addListDoc s p u).2 u (addListDoc s p u).1 p).quotes = _
  rw [setListAlias_quotes, addListDoc_quotes]

theorem copyQuotesTo_lists (nid : String) :
    ∀ (qs : List Quote) (st : Store),
      (copyQuotesTo nid qs st).lists = st.lists := by
  intro qs
  induction qs with
  | nil => intro st; rfl
  | cons q rest ih =>
    intro st
    show (copyQuotesTo nid rest
      (addQuoteDoc st q.text q.personAlias nid q.createdAt q.createdBy)).lists
        = st.lists
    rw [ih, addQuoteDoc_lists]

theorem copyQuotesTo_filter_map (nid : String) :
    ∀ (qs : List Quote) (st : Store),
      ((copyQuotesTo nid qs st).quotes.filter
          (fun q => q.listId == nid)).map qproj =
        (st.quotes.filter (fun q => q.listId == nid)).map qproj ++
          qs.map qproj := by
  intro qs
  induction qs with
  | nil => intro st; simp [copyQuotesTo]
  | cons q rest ih =>
    intro st
    show ((copyQuotesTo nid rest
        (addQuoteDoc st q.text q.personAlias nid q.createdAt
          q.createdBy)).quotes.filter (fun x => x.listId == nid)).map qproj
      = _
    rw [ih, addQuoteDoc_quotes, List.filter_append, List.map_append]
    have hnew : ([⟨genId st.nextId, q.text, q.personAlias, nid, q.createdAt,
        q.createdBy⟩] : List Quote).filter (fun x => x.listId == nid) =
        [⟨genId st.nextId, q.text, q.personAlias, nid, q.createdAt,
          q.createdBy⟩] := by
      simp
    rw [hnew]
    simp [qproj, List.append_assoc]

theorem removeCollaborator_of_any (s : Store) (lid u : String)
    (h : s.lists.any (fun l => l.id == lid) = true) :
    removeCollaborator s lid u =
      .ok { s with lists := s.lists.map (fun l =>
        if l.id == lid then
          { l with collaborators :=
              l.collaborators.filter (fun c => !(c == u)) }
        else l) } := by
  unfold removeCollaborator
  rw [if_pos h]

theorem mem_getQuotesForList (s : Store) (lid : String) (q : Quote) :
    q ∈ getQuotesForList s lid ↔
      q ∈ s.quotes ∧ (q.listId == lid) = true := by
  unfold getQuotesForList sortByMillisDesc
  rw [(List.perm_insertionSort _ _).mem_iff, List.mem_filter]

theorem leaveList_core (s : Store) (listId userId : String)
    (L : QuoteList) (s2 : Store)
    (hmemL : L ∈ s.lists) (hidL : L.id = listId)
    (h2l : s2.lists =
      s.lists ++ [⟨genId s.nextId, L.personName, [userId], some s.now,
        userId⟩])
    (h2q : s2.quotes = s.quotes)
    (hfreshQ : ∀ q ∈ s.quotes, q.listId ≠ genId s.nextId) :
    (leaveListTail s listId userId s2).1 = .ok (genId s.nextId) ∧
    (((leaveListTail s listId userId s2).2.quotes.filter
        (fun q => q.listId == genId s.nextId)).length =
      (s.quotes.filter (fun q => q.listId == listId)).length) ∧
    (((leaveListTail s listId userId s2).2.quotes.filter
        (fun q => q.listId == genId s.nextId)).map qproj =
      (getQuotesForList s listId).map qproj) ∧
    (∀ l ∈ (leaveListTail s listId userId s2).2.lists,
      l.id = listId → userId ∉ l.collaborators) ∧
    (∃ l ∈ (leaveListTail s listId userId s2).2.lists, l.id = listId) ∧
    getListAlias (leaveListTail s listId userId s2).2 userId listId
      = none := by
  have hany : (copyQuotesTo (genId s.nextId) (getQuotesForList s listId)
      s2).lists.any (fun l => l.id == listId) = true := by
    rw [copyQuotesTo_lists, h2l]
    exact List.any_eq_true.mpr ⟨L, List.mem_append_left _ hmemL,
      by simp [hidL]⟩
  have hrun : leaveListTail s listId userId s2 =
      (.ok (genId s.nextId),
       deleteListAlias
         { copyQuotesTo (genId s.nextId) (getQuotesForList s listId) s2 with
             lists := (copyQuotesTo (genId s.nextId)
               (getQuotesForList s listId) s2).lists.map (fun l =>
                 if l.id == listId then
                   { l with collaborators :=
                       l.collaborators.filter (fun c => !(c == userId)) }
                 else l) }
         userId listId) := by
    show (match removeCollaborator
        (copyQuotesTo (genId s.nextId) (getQuotesForList s listId) s2)
        listId userId with
      | Except.error e => ((Except.error e : Except Err String),
          copyQuotesTo (genId s.nextId) (getQuotesForList s listId) s2)
      | Except.ok s4 => ((Except.ok (genId s.nextId) : Except Err String),
          deleteListAlias s4 userId listId)) = _
    rw [removeCollaborator_of_any _ _ _ hany]
  rw [hrun]
  have hq3 : (((deleteListAlias
      { copyQuotesTo (genId s.nextId) (getQuotesForList s listId) s2 with
          lists := (copyQuotesTo (genId s.nextId)
            (getQuotesForList s listId) s2).lists.map (fun l =>
              if l.id == listId then
                { l with collaborators :=
                    l.collaborators.filter (fun c => !(c == userId)) }
              else l) }
      userId listId).quotes.filter
        (fun q => q.listId == genId s.nextId)).map qproj) =
      (getQuotesForList s listId).map qproj := by
    show (((copyQuotesTo (genId s.nextId) (getQuotesForList s listId)
      s2).quotes.filter (fun q => q.listId == genId s.nextId)).map qproj)
      = _
    rw [copyQuotesTo_filter_map, h2q]
    have hnil : s.quotes.filter (fun q => q.listId == genId s.nextId)
        = [] := by
      rw [List.filter_eq_nil_iff]
      intro q hq
      simp [hfreshQ q hq]
    rw [hnil]
    simp
  refine ⟨rfl, ?_, hq3, ?_, ?_, ?_⟩
  · have h1 := congrArg List.length hq3
    rw [List.length_map, List.length_map] at h1
    rw [h1]
    show (getQuotesForList s listId).length = _
    unfold getQuotesForList sortByMillisDesc
    exact (List.perm_insertionSort _ _).length_eq
  · intro l hl hid
    obtain ⟨l0, hl0, rfl⟩ := List.mem_map.mp hl
    by_cases hc : (l0.id == listId) = true
    · rw [if_pos hc]
      intro hmemc
      simp only [List.mem_filter] at hmemc
      simp at hmemc
    · rw [if_neg hc] at hid
      exact absurd (by simp [hid]) hc
  · refine ⟨(fun l => if l.id == listId then
        { l with collaborators :=
            l.collaborators.filter (fun c => !(c == userId)) }
      else l) L, List.mem_map_of_mem _ ?_, ?_⟩
    · show L ∈ (copyQuotesTo (genId s.nextId) (getQuotesForList s listId)
        s2).lists
      rw [copyQuotesTo_lists, h2l]
      exact List.mem_append_left _ hmemL
    · simp [hidL]
  · have h := find?_filter_not
      (fun e => e.1 == userId && e.2.1 == listId)
      (copyQuotesTo (genId s.nextId) (getQuotesForList s listId)
        s2).aliases
    show ((((copyQuotesTo (genId s.nextId) (getQuotesForList s listId)
        s2).aliases.filter
          (fun e => !(e.1 == userId && e.2.1 == listId))).find?
            (fun e => e.1 == userId && e.2.1 == listId)).map
              (fun e => e.2.2)) = none
    rw [h]
    rfl

/-- C1: leaving an existing list returns the fresh list id; the new list
carries exactly as many quotes as the source had at the initial read, each
copy preserving `text`, `personAlias`, `createdAt` and `createdBy`
(authorship is not reassigned); the acting user is gone from the source
list's collaborators; and the acting user's alias record for the source
list is deleted.  The freshness hypotheses state the store's guarantee
that auto-generated ids are new. -/
theorem claim_C1 (s : Store) (listId userId : String) (L : QuoteList)
    (hL : getList s listId = some L)
    (hfreshL : ∀ l ∈ s.lists, l.id ≠ genId s.nextId)
    (hfreshQ : ∀ q ∈ s.quotes, q.listId ≠ genId s.nextId) :
    (leaveList s listId userId).1 = .ok (genId s.nextId) ∧
    (((leaveList s listId userId).2.quotes.filter
        (fun q => q.listId == genId s.nextId)).length =
      (s.quotes.filter (fun q => q.listId == listId)).length) ∧
    (((leaveList s listId userId).2.quotes.filter
        (fun q => q.listId == genId s.nextId)).map qproj =
      (getQuotesForList s listId).map qproj) ∧
    (∀ l ∈ (leaveList s listId userId).2.lists,
      l.id = listId → userId ∉ l.collaborators) ∧
    (∃ l ∈ (leaveList s listId userId).2.lists, l.id = listId) ∧
    getListAlias (leaveList s listId userId).2 userId listId = none := by
  have hmemL : L ∈ s.lists := List.mem_of_find?_eq_some hL
  have hidL : L.id = listId := by simpa using List.find?_some hL
  have hcore := fun (s2 : Store) h2l h2q =>
    leaveList_core s listId userId L s2 hmemL hidL h2l h2q hfreshQ
  unfold leaveList
  rw [hL]
  dsimp only
  cases hA : getListAlias s userId listId with
  | none =>
    exact hcore (createList s L.personName userId).2
      (createList_snd_lists s L.personName userId)
      (createList_snd_quotes s L.personName userId)
  | some a =>
    dsimp only
    by_cases hIf : a ≠ "" ∧ a ≠ L.personName
    · rw [if_pos hIf]
      exact hcore (setListAlias (createList s L.personName userId).2
          userId (genId s.nextId) a)
        (by rw [setListAlias_lists, createList_snd_lists])
        (by rw [setListAlias_quotes, createList_snd_quotes])
    · rw [if_neg hIf]
      exact hcore (createList s L.personName userId).2
        (createList_snd_lists s L.personName userId)
        (createList_snd_quotes s L.personName userId)

/-- Witness for C1: `u1` leaves the concrete list `l1` of `twoListStore`. -/
theorem claim_C1_witness :
    (leaveList twoListStore "l1" "u1").1 =
      .ok (genId twoListStore.nextId) ∧
    (((leaveList twoListStore "l1" "u1").2.quotes.filter
        (fun q => q.listId == genId twoListStore.nextId)).length =
      (twoListStore.quotes.filter (fun q => q.listId == "l1")).length) ∧
    (((leaveList twoListStore "l1" "u1").2.quotes.filter
        (fun q => q.listId == genId twoListStore.nextId)).map qproj =
      (getQuotesForList twoListStore "l1").map qproj) ∧
    (∀ l ∈ (leaveList twoListStore "l1" "u1").2.lists,
      l.id = "l1" → "u1" ∉ l.collaborators) ∧
    (∃ l ∈ (leaveList twoListStore "l1" "u1").2.lists, l.id = "l1") ∧
    getListAlias (leaveList twoListStore "l1" "u1").2 "u1" "l1" = none :=
  claim_C1 twoListStore "l1" "u1"
    ⟨"l1", "Mike", ["u1", "u2"], some 0, "u1"⟩
    (by decide) (by decide) (by decide)

/-! ### C2: mergeLists -/

theorem updateQuoteListId_of_any (s : Store) (qid keep : String)
    (h : s.quotes.any (fun q => q.id == qid) = true) :
    updateQuoteListId s qid keep =
      .ok { s with quotes := s.quotes.map (fun q =>
        if q.id == qid then { q with listId := keep } else q) } := by
  unfold updateQuoteListId
  rw [if_pos h]

theorem addCollaborator_of_any (s : Store) (lid c : String)
    (h : s.lists.any (fun l => l.id == lid) = true) :
    addCollaborator s lid c =
      .ok { s with lists := s.lists.map (fun l =>
        if l.id == lid then
          { l with collaborators :=
              if l.collaborators.contains c then l.collaborators
              else l.collaborators ++ [c] }
        else l) } := by
  unfold addCollaborator
  rw [if_pos h]

theorem updateQuotesListIds_spec (keep : String) :
    ∀ (qs : List Quote) (s : Store),
      (∀ q ∈ qs, ∃ p ∈ s.quotes, p.id = q.id) →
      updateQuotesListIds s qs keep =
        (none, { s with quotes := s.quotes.map (fun q =>
          if (qs.map (fun x => x.id)).contains q.id
          then { q with listId := keep } else q) }) := by
  intro qs
  induction qs with
  | nil =>
    intro s h
    show (none, s) = _
    have hfun : (fun (q : Quote) =>
        if (([] : List Quote).map (fun x => x.id)).contains q.id
        then { q with listId := keep } else q) = fun q => q := by
      funext q
      rfl
    rw [hfun, List.map_id']
  | cons q rest ih =>
    intro s h
    obtain ⟨p, hp, hpid⟩ := h q (List.mem_cons_self _ _)
    have hany : s.quotes.any (fun x => x.id == q.id) = true :=
      List.any_eq_true.mpr ⟨p, hp, by simp [hpid]⟩
    have hrest : ∀ x ∈ rest,
        ∃ p2 ∈ ({ s with quotes := s.quotes.map (fun y =>
          if y.id == q.id then { y with listId := keep } else y) }
            : Store).quotes, p2.id = x.id := by
      intro x hx
      obtain ⟨p2, hp2, hp2id⟩ := h x (List.mem_cons_of_mem _ hx)
      refine ⟨(fun y => if y.id == q.id then { y with listId := keep }
        else y) p2, List.mem_map_of_mem _ hp2, ?_⟩
      show (if (p2.id == q.id) = true
        then ({ p2 with listId := keep } : Quote) else p2).id = x.id
      by_cases hc : (p2.id == q.id) = true
      · rw [if_pos hc]
        exact hp2id
      · rw [if_neg hc]
        exact hp2id
    show (match updateQuoteListId s q.id keep with
      | Except.error e => ((some e : Option Err), s)
      | Except.ok s1 => updateQuotesListIds s1 rest keep) = _
    rw [updateQuoteListId_of_any s q.id keep hany]
    show updateQuotesListIds _ rest keep = _
    rw [ih _ hrest]
    have hfun : ((fun (y : Quote) =>
        if (rest.map (fun x => x.id)).contains y.id
        then { y with listId := keep } else y) ∘
        (fun (y : Quote) =>
          if y.id == q.id then { y with listId := keep } else y)) =
        fun (y : Quote) =>
          if ((q :: rest).map (fun x => x.id)).contains y.id
          then { y with listId := keep } else y := by
      funext y
      obtain ⟨yid, yt, ypa, yl, yca, ycb⟩ := y
      simp only [Function.comp_apply]
      by_cases h1 : (yid == q.id) = true
      · have h1' : yid = q.id := by simpa using h1
        simp [h1', List.contains_cons]
      · have h1' : ¬(yid = q.id) := by simpa using h1
        simp [h1', List.contains_cons]
    show (none, { s with quotes :=
      (s.quotes.map _).map _ }) = _
    rw [List.map_map, hfun]

theorem addAllCollaborators_spec (keep : String) :
    ∀ (cs : List String) (s : Store),
      s.lists.any (fun l => l.id == keep) = true →
      addAllCollaborators s keep cs =
        (none, { s with lists := s.lists.map (fun l =>
          if l.id == keep then
            { l with collaborators := unionAppend l.collaborators cs }
          else l) }) := by
  intro cs
  induction cs with
  | nil =>
    intro s h
    show (none, s) = _
    have hfun : (fun (l : QuoteList) =>
        if l.id == keep then
          { l with collaborators := unionAppend l.collaborators [] }
        else l) = fun l => l := by
      funext l
      by_cases hc : (l.id == keep) = true
      · rw [if_pos hc]
        rfl
      · rw [if_neg hc]
    rw [hfun, List.map_id']
  | cons c rest ih =>
    intro s h
    show (match addCollaborator s keep c with
      | Except.error e => ((some e : Option Err), s)
      | Except.ok s1 => addAllCollaborators s1 keep rest) = _
    rw [addCollaborator_of_any s keep c h]
    show addAllCollaborators _ keep rest = _
    have hcomp : ((fun (l : QuoteList) => l.id == keep) ∘
        (fun (l : QuoteList) =>
          if l.id == keep then
            { l with collaborators :=
                if l.collaborators.contains c then l.collaborators
                else l.collaborators ++ [c] }
          else l)) = fun l => l.id == keep := by
      funext l
      simp only [Function.comp_apply]
      by_cases hc : (l.id == keep) = true
      · rw [if_pos hc]
      · rw [if_neg hc]
    have hany1 : (s.lists.map (fun l =>
        if l.id == keep then
          { l with collaborators :=
              if l.collaborators.contains c then l.collaborators
              else l.collaborators ++ [c] }
        else l)).any (fun l => l.id == keep) = true := by
      rw [List.any_map, hcomp]
      exact h
    rw [ih _ hany1]
    have hfun : ((fun (l : QuoteList) =>
        if l.id == keep then
          { l with collaborators := unionAppend l.collaborators rest }
        else l) ∘
        (fun (l : QuoteList) =>
          if l.id == keep then
            { l with collaborators :=
                if l.collaborators.contains c then l.collaborators
                else l.collaborators ++ [c] }
          else l)) =
        fun (l : QuoteList) =>
          if l.id == keep then
            { l with collaborators :=
                unionAppend l.collaborators (c :: rest) }
          else l := by
      funext l
      obtain ⟨lid, lpn, lco, lca, lcb⟩ := l
      simp only [Function.comp_apply]
      by_cases hc : (lid == keep) = true
      · have hc' : lid = keep := by simpa using hc
        simp [hc', unionAppend]
      · have hc' : ¬(lid = keep) := by simpa using hc
        simp [hc']
    show (none, { s with lists := (s.lists.map _).map _ }) = _
    rw [List.map_map, hfun]

/-- C2 counterexample: the claim quantifies over every `keepListId`.
Taking `keepListId = mergeListId = l1` on a store where `l1` exists, the
merge completes with `.ok` but then deletes `l1` itself, so the
post-condition "keepListId's collaborator set equals the union of both
prior collaborator sets" fails: `keepListId` no longer resolves at all. -/
theorem claim_C2_cex :
    (mergeLists twoListStore "l1" "l1" "u1").1 = .ok () ∧
    getList (mergeLists twoListStore "l1" "l1" "u1").2 "l1" = none := by
  exact ⟨rfl, by decide⟩

/-- C2 (amended): for an existing `mergeListId` and an existing
`keepListId` distinct from it, after `mergeLists` completes the keep
list's collaborator set is the union of both prior sets, every quote that
had `listId = mergeListId` now has `listId = keepListId` (and no quote
retains `mergeListId`), the acting user's alias for `mergeListId` is
deleted, and the `mergeListId` document no longer exists. -/
theorem claim_C2 (s : Store) (keepListId mergeListId userId : String)
    (K M : QuoteList)
    (hK : getList s keepListId = some K)
    (hM : getList s mergeListId = some M)
    (hne : keepListId ≠ mergeListId) :
    (mergeLists s keepListId mergeListId userId).1 = .ok () ∧
    (∃ K2, getList (mergeLists s keepListId mergeListId userId).2
        keepListId = some K2 ∧
      ∀ u, u ∈ K2.collaborators ↔
        (u ∈ K.collaborators ∨ u ∈ M.collaborators)) ∧
    (∀ q ∈ s.quotes, q.listId = mergeListId →
      { q with listId := keepListId } ∈
        (mergeLists s keepListId mergeListId userId).2.quotes) ∧
    (∀ q ∈ (mergeLists s keepListId mergeListId userId).2.quotes,
      q.listId ≠ mergeListId) ∧
    getListAlias (mergeLists s keepListId mergeListId userId).2 userId
      mergeListId = none ∧
    getList (mergeLists s keepListId mergeListId userId).2 mergeListId
      = none := by
  have hmemM : M ∈ s.lists := List.mem_of_find?_eq_some hM
  have hidM : M.id = mergeListId := by simpa using List.find?_some hM
  have hmemK : K ∈ s.lists := List.mem_of_find?_eq_some hK
  have hidK : K.id = keepListId := by simpa using List.find?_some hK
  have hex : ∀ q ∈ getQuotesForList s mergeListId,
      ∃ p ∈ s.quotes, p.id = q.id := by
    intro q hq
    exact ⟨q, ((mem_getQuotesForList s mergeListId q).mp hq).1, rfl⟩
  have hupd := updateQuotesListIds_spec keepListId
    (getQuotesForList s mergeListId) s hex
  have hanyS1 : ({ s with quotes := s.quotes.map (fun q =>
      if ((getQuotesForList s mergeListId).map
        (fun x => x.id)).contains q.id
      then { q with listId := keepListId } else q) } : Store).lists.any
        (fun l => l.id == keepListId) = true :=
    List.any_eq_true.mpr ⟨K, hmemK, by simp [hidK]⟩
  have haddc := addAllCollaborators_spec keepListId M.collaborators _
    hanyS1
  have hrun : mergeLists s keepListId mergeListId userId =
      (.ok (),
       deleteList
         (deleteListAlias
           { ({ s with quotes := s.quotes.map (fun q =>
              if ((getQuotesForList s mergeListId).map
                (fun x => x.id)).contains q.id
              then { q with listId := keepListId } else q) } : Store) with
               lists := s.lists.map (fun l =>
                 if l.id == keepListId then
                   { l with collaborators :=
                       unionAppend l.collaborators M.collaborators }
                 else l) }
           userId mergeListId)
         mergeListId) := by
    unfold mergeLists
    rw [hM]
    show (match (updateQuotesListIds s (getQuotesForList s mergeListId)
        keepListId).1 with
      | some e => ((Except.error e : Except Err Unit),
          (updateQuotesListIds s (getQuotesForList s mergeListId)
            keepListId).2)
      | none =>
        match (addAllCollaborators
            (updateQuotesListIds s (getQuotesForList s mergeListId)
              keepListId).2 keepListId M.collaborators).1 with
        | some e => ((Except.error e : Except Err Unit),
            (addAllCollaborators
              (updateQuotesListIds s (getQuotesForList s mergeListId)
                keepListId).2 keepListId M.collaborators).2)
        | none => (.ok (),
            deleteList
              (deleteListAlias
                (addAllCollaborators
                  (updateQuotesListIds s
                    (getQuotesForList s mergeListId) keepListId).2
                  keepListId M.collaborators).2
                userId mergeListId)
              mergeListId)) = _
    rw [hupd]
    dsimp only
    rw [haddc]
  rw [hrun]
  refine ⟨rfl, ?_, ?_, ?_, ?_, ?_⟩
  · refine ⟨({ K with
        collaborators := unionAppend K.collaborators M.collaborators } :
          QuoteList), ?_, ?_⟩
    · show ((s.lists.map (fun l =>
        if l.id == keepListId then
          { l with collaborators :=
              unionAppend l.collaborators M.collaborators }
        else l)).filter
          (fun l => !(l.id == mergeListId))).find?
            (fun l => l.id == keepListId) = _
      have hfind : (s.lists.map (fun l =>
          if l.id == keepListId then
            { l with collaborators :=
                unionAppend l.collaborators M.collaborators }
          else l)).find? (fun l => l.id == keepListId) =
          some { K with collaborators :=
                   unionAppend K.collaborators M.collaborators } := by
        rw [List.find?_map]
        have hcomp : ((fun (l : QuoteList) => l.id == keepListId) ∘
            (fun (l : QuoteList) =>
              if l.id == keepListId then
                { l with collaborators :=
                    unionAppend l.collaborators M.collaborators }
              else l)) = fun l => l.id == keepListId := by
          funext l
          simp only [Function.comp_apply]
          by_cases hc : (l.id == keepListId) = true
          · rw [if_pos hc]
          · rw [if_neg hc]
        rw [hcomp]
        have hKfind : s.lists.find? (fun l => l.id == keepListId)
            = some K := hK
        rw [hKfind]
        simp [hidK]
      exact find?_filter_keep _ _ _ _ hfind (by simp [hidK, hne])
    · intro u
      exact mem_unionAppend u M.collaborators K.collaborators
  · intro q hq hqm
    have hql : q ∈ getQuotesForList s mergeListId :=
      (mem_getQuotesForList s mergeListId q).mpr ⟨hq, by simp [hqm]⟩
    have hcont : ((getQuotesForList s mergeListId).map
        (fun x => x.id)).contains q.id = true :=
      List.elem_iff.mpr (List.mem_map_of_mem _ hql)
    have hcq : (fun (y : Quote) =>
        if ((getQuotesForList s mergeListId).map
          (fun x => x.id)).contains y.id
        then { y with listId := keepListId } else y) q =
        { q with listId := keepListId } := by
      show (if ((getQuotesForList s mergeListId).map
          (fun x => x.id)).contains q.id = true
        then ({ q with listId := keepListId } : Quote) else q) =
        { q with listId := keepListId }
      rw [if_pos hcont]
    show { q with listId := keepListId } ∈ s.quotes.map (fun y =>
      if ((getQuotesForList s mergeListId).map
        (fun x => x.id)).contains y.id
      then { y with listId := keepListId } else y)
    exact hcq ▸ List.mem_map_of_mem _ hq
  · intro q hq
    have hq' : q ∈ s.quotes.map (fun y =>
        if ((getQuotesForList s mergeListId).map
          (fun x => x.id)).contains y.id
        then { y with listId := keepListId } else y) := hq
    obtain ⟨q0, hq0, rfl⟩ := List.mem_map.mp hq'
    by_cases hc : ((getQuotesForList s mergeListId).map
        (fun x => x.id)).contains q0.id = true
    · rw [if_pos hc]
      exact hne
    · rw [if_neg hc]
      intro hql
      apply hc
      have hmem : q0 ∈ getQuotesForList s mergeListId :=
        (mem_getQuotesForList s mergeListId q0).mpr ⟨hq0, by simp [hql]⟩
      exact List.elem_iff.mpr (List.mem_map_of_mem _ hmem)
  · have h := find?_filter_not
      (fun (e : String × String × String) =>
        e.1 == userId && e.2.1 == mergeListId) s.aliases
    show (((s.aliases.filter
        (fun e => !(e.1 == userId && e.2.1 == mergeListId))).find?
          (fun e => e.1 == userId && e.2.1 == mergeListId)).map
            (fun e => e.2.2)) = none
    rw [h]
    rfl
  · exact find?_filter_not (fun (l : QuoteList) => l.id == mergeListId) _

/-- Witness for C2 at the concrete store: merge `l2` into `l1` as `u1`. -/
theorem claim_C2_witness :
    (mergeLists twoListStore "l1" "l2" "u1").1 = .ok () ∧
    (∃ K2, getList (mergeLists twoListStore "l1" "l2" "u1").2 "l1" =
        some K2 ∧
      ∀ u, u ∈ K2.collaborators ↔
        (u ∈ (⟨"l1", "Mike", ["u1", "u2"], some 0, "u1"⟩
            : QuoteList).collaborators ∨
         u ∈ (⟨"l2", "Mike", ["u2", "u3"], some 0, "u2"⟩
            : QuoteList).collaborators)) ∧
    (∀ q ∈ twoListStore.quotes, q.listId = "l2" →
      { q with listId := "l1" } ∈
        (mergeLists twoListStore "l1" "l2" "u1").2.quotes) ∧
    (∀ q ∈ (mergeLists twoListStore "l1" "l2" "u1").2.quotes,
      q.listId ≠ "l2") ∧
    getListAlias (mergeLists twoListStore "l1" "l2" "u1").2 "u1" "l2"
      = none ∧
    getList (mergeLists twoListStore "l1" "l2" "u1").2 "l2" = none :=
  claim_C2 twoListStore "l1" "l2" "u1"
    ⟨"l1", "Mike", ["u1", "u2"], some 0, "u1"⟩
    ⟨"l2", "Mike", ["u2", "u3"], some 0, "u2"⟩
    (by decide) (by decide) (by decide)

/-! ### C7: export quote shape -/

theorem groupGet_groupInsert (m : List (String × List Quote)) (q : Quote)
    (k : String) :
    groupGet (groupInsert m q) k =
      if (q.listId == k) = true then groupGet m k ++ [q]
      else groupGet m k := by
  unfold groupInsert groupGet
  by_cases hm : m.any (fun e => e.1 == q.listId) = true
  · rw [if_pos hm, List.find?_map]
    have hpre : ((fun (e : String × List Quote) => e.1 == k) ∘
        (fun (e : String × List Quote) =>
          if e.1 == q.listId then (e.1, e.2 ++ [q]) else e)) =
        fun (e : String × List Quote) => e.1 == k := by
      funext e
      simp only [Function.comp_apply]
      by_cases hc : (e.1 == q.listId) = true
      · rw [if_pos hc]
      · rw [if_neg hc]
    rw [hpre]
    by_cases hk : (q.listId == k) = true
    · have hkq : q.listId = k := by simpa using hk
      rw [if_pos hk]
      obtain ⟨e0, he0, hpe0⟩ := List.any_eq_true.mp hm
      have hex : (m.find? (fun e => e.1 == k)).isSome := by
        rw [List.find?_isSome]
        exact ⟨e0, he0, by rw [← hkq]; exact hpe0⟩
      obtain ⟨e1, he1⟩ := Option.isSome_iff_exists.mp hex
      have hpe1 : (e1.1 == k) = true := by
        have h2 := List.find?_some he1
        exact h2
      have hpe1q : (e1.1 == q.listId) = true := by rw [hkq]; exact hpe1
      rw [he1]
      show ((if (e1.1 == q.listId) = true then (e1.1, e1.2 ++ [q])
        else e1)).2 = e1.2 ++ [q]
      rw [if_pos hpe1q]
    · rw [if_neg hk]
      have hkq : q.listId ≠ k := by simpa using hk
      cases hfind : m.find? (fun e => e.1 == k) with
      | none => rfl
      | some e1 =>
        have hpe1 : (e1.1 == k) = true := by
          have h2 := List.find?_some hfind
          exact h2
        have he1k : e1.1 = k := by simpa using hpe1
        have hne : (e1.1 == q.listId) = false := by
          simp [he1k]
          exact fun hcc => hkq hcc.symm
        show ((if (e1.1 == q.listId) = true then (e1.1, e1.2 ++ [q])
          else e1)).2 = e1.2
        rw [hne]
        rfl
  · rw [if_neg hm, List.find?_append]
    by_cases hk : (q.listId == k) = true
    · rw [if_pos hk]
      have hnone : m.find? (fun e => e.1 == k) = none := by
        rw [List.find?_eq_none]
        intro e he hpe
        apply hm
        refine List.any_eq_true.mpr ⟨e, he, ?_⟩
        have hek : e.1 = k := by simpa using hpe
        have hqk : q.listId = k := by simpa using hk
        simp [hek, hqk]
      rw [hnone]
      simp [List.find?_cons, hk]
    · rw [if_neg hk]
      cases hfind : m.find? (fun e => e.1 == k) with
      | none => simp [hfind, List.find?_cons, hk]
      | some e1 => simp [hfind]

theorem groupGet_groupPairs (qs : List Quote) (k : String) :
    groupGet (groupPairs qs) k = qs.filter (fun q => q.listId == k) := by
  suffices h : ∀ (m : List (String × List Quote)),
      groupGet (qs.foldl groupInsert m) k =
        groupGet m k ++ qs.filter (fun q => q.listId == k) by
    have h0 := h []
    have hnil : groupGet [] k = [] := rfl
    rw [hnil, List.nil_append] at h0
    exact h0
  induction qs with
  | nil => intro m; simp
  | cons q rest ih =>
    intro m
    rw [List.foldl_cons, ih (groupInsert m q), groupGet_groupInsert]
    by_cases hk : (q.listId == k) = true
    · rw [if_pos hk]
      simp [List.filter_cons, hk, List.append_assoc]
    · rw [if_neg hk]
      simp [List.filter_cons, hk]

theorem mem_applyDateFilters (fd td : Option Millis) (qs : List Quote)
    (q : Quote) (h : q ∈ applyDateFilters fd td qs) : q ∈ qs := by
  unfold applyDateFilters at h
  cases fd <;> cases td <;> simp only [List.mem_filter] at h
  · exact h
  · exact h.1
  · exact h.1
  · exact h.1.1

theorem mem_getQuotesForLists (s : Store) (ids : List String) (q : Quote)
    (h : q ∈ getQuotesForLists s ids) : q ∈ s.quotes := by
  unfold getQuotesForLists at h
  by_cases he : ids.isEmpty = true
  · rw [if_pos he] at h
    simp at h
  · rw [if_neg he] at h
    unfold sortByMillisDesc at h
    rw [(List.perm_insertionSort _ _).mem_iff] at h
    have hs : ∀ (bs : List (List String)) (acc : List Quote),
        q ∈ bs.foldl (fun acc2 batch =>
          acc2 ++ s.quotes.filter (fun x => batch.contains x.listId)) acc →
        q ∈ acc ∨ q ∈ s.quotes := by
      intro bs
      induction bs with
      | nil => intro acc hacc; exact Or.inl hacc
      | cons b rest ih =>
        intro acc hacc
        rcases ih _ hacc with h1 | h1
        · rcases List.mem_append.mp h1 with h2 | h2
          · exact Or.inl h2
          · exact Or.inr (List.mem_filter.mp h2).1
        · exact Or.inr h1
    rcases hs _ _ h with h1 | h1
    · simp at h1
    · exact h1

theorem isoOfMillis_ne_empty (t : Millis) : isoOfMillis t ≠ "" := by
  intro h
  have hlen : (isoOfMillis t).length = 0 := by rw [h]; rfl
  have hz : ("Z" : String).length = 1 := rfl
  simp only [isoOfMillis, String.length_append] at hlen
  omega

/-- C7 counterexample: the claim says no internal id appears anywhere in
the export format, but each list entry of the export carries the internal
list id (`id: list.id!`): exporting `expStore` yields an entry whose `id`
field is the store's internal list id `l1`. -/
theorem claim_C7_cex :
    (buildExportData expStore "u1" ⟨none, none, none⟩).lists.map
      (fun l => l.id) = ["l1"] ∧
    expStore.lists.map (fun l => l.id) = ["l1"] := by
  exact ⟨by decide, by decide⟩

/-- C7 (amended): every quote entry of the export is `toExportQuote` of a
stored quote — exactly the fields `text`, `personAlias`, `createdAt`,
`createdBy`, with no quote id or `listId` — where `createdAt` is the ISO
serialization of the timestamp and the empty string exactly when the
timestamp is absent.  (List entries, unlike quote entries, do carry the
internal list id.) -/
theorem claim_C7 (s : Store) (u : String) (o : BuildExportOptions) :
    ∀ l ∈ (buildExportData s u o).lists, ∀ e ∈ l.quotes,
      ∃ q, q ∈ s.quotes ∧ e = toExportQuote q ∧
        (e.createdAt = "" ↔ q.createdAt = none) ∧
        (∀ t, q.createdAt = some t → e.createdAt = isoOfMillis t) := by
  intro l hl e he
  have hl1 : l ∈ (exportEntries s u o).filter
      (fun l2 => decide (0 < l2.quotes.length) || o.fromDate.isNone) := hl
  have hl2 : l ∈ exportEntries s u o := List.mem_of_mem_filter hl1
  unfold exportEntries at hl2
  obtain ⟨L, hLmem, hleq⟩ := List.mem_map.mp hl2
  rw [← hleq] at he
  have he2 : e ∈ (groupGet
      (groupPairs (applyDateFilters o.fromDate o.toDate
        (getQuotesForLists s
          ((selectedLists s u o).map (fun l2 => l2.id))))) L.id).map
      toExportQuote := he
  obtain ⟨q, hq, heq⟩ := List.mem_map.mp he2
  rw [groupGet_groupPairs] at hq
  have hq2 := (List.mem_filter.mp hq).1
  have hq3 := mem_applyDateFilters _ _ _ _ hq2
  have hq4 : q ∈ s.quotes := mem_getQuotesForLists s _ q hq3
  refine ⟨q, hq4, heq.symm, ?_, ?_⟩
  · rw [← heq]
    cases hqc : q.createdAt with
    | none => simp [toExportQuote, hqc]
    | some t => simp [toExportQuote, hqc, isoOfMillis_ne_empty t]
  · intro t ht
    rw [← heq]
    simp [toExportQuote, ht]

/-- Witness for C7: the newest exported quote of `expStore` comes from the
stored quote `q3`. -/
theorem claim_C7_witness :
    ∃ q, q ∈ expStore.quotes ∧
      (⟨"t3", "Mike", isoOfMillis 3000, "u1"⟩ : ExportQuote) =
        toExportQuote q ∧
      ((⟨"t3", "Mike", isoOfMillis 3000, "u1"⟩ : ExportQuote).createdAt
          = "" ↔ q.createdAt = none) ∧
      (∀ t, q.createdAt = some t →
        (⟨"t3", "Mike", isoOfMillis 3000, "u1"⟩
          : ExportQuote).createdAt = isoOfMillis t) :=
  claim_C7 expStore "u1" ⟨none, none, none⟩
    ⟨"l1", "Mike", "Mike",
      [⟨"t3", "Mike", isoOfMillis 3000, "u1"⟩,
       ⟨"t2", "Mike", isoOfMillis 2000, "u1"⟩,
       ⟨"t1", "Mike", isoOfMillis 1000, "u1"⟩]⟩ (by decide)
    ⟨"t3", "Mike", isoOfMillis 3000, "u1"⟩ (by decide)

end Quoth
